import Mathlib

/-!
Verification development for the molecular-viewer visual (src/visual.ts).

The TypeScript source is shallowly embedded: JavaScript strings become
`List Char`, the regex-based text transforms become recursive functions on
character lists, and the stateful viewer-pool reconciliation becomes explicit
state passing over a list of cells.  Definition names follow the source
(`normalizePdbData`, `detectFormat`, `isValidStructureData`,
`detectFormatFromPath`, `setupViewerGrid`, ...).
-/

namespace PbiMol

/-- JavaScript whitespace (the set recognised by `String.prototype.trim` and by
the regex class `\s`): TAB, LF, VT, FF, CR, SPACE, NBSP, OGHAM SPACE, the
U+2000 to U+200A spaces, LINE/PARAGRAPH SEPARATOR, NARROW NBSP, MMSP,
IDEOGRAPHIC SPACE, and the BOM U+FEFF. -/
def isJsWs (c : Char) : Bool :=
  let n := c.toNat
  n = 0x09 || n = 0x0A || n = 0x0B || n = 0x0C || n = 0x0D || n = 0x20 ||
  n = 0xA0 || n = 0x1680 || (0x2000 ≤ n && n ≤ 0x200A) ||
  n = 0x2028 || n = 0x2029 || n = 0x202F || n = 0x205F || n = 0x3000 || n = 0xFEFF

/-- Digit class of the regexes `^\d+$` and `\d`. -/
def isDigitCh (c : Char) : Bool :=
  0x30 ≤ c.toNat && c.toNat ≤ 0x39

/-- Drop trailing characters satisfying `isJsWs` (the tail half of `trim`). -/
def dropTrail (s : List Char) : List Char :=
  (s.reverse.dropWhile isJsWs).reverse

/-- JavaScript `String.prototype.trim` on a character list. -/
def trimL (s : List Char) : List Char :=
  dropTrail (s.dropWhile isJsWs)

/-- ASCII lower-casing of one character, modelling `toLowerCase` on the ASCII
text this visual manipulates (format tags, markers, file extensions). -/
def lowerCh (c : Char) : Char :=
  if 0x41 ≤ c.toNat ∧ c.toNat ≤ 0x5A then Char.ofNat (c.toNat + 32) else c

/-- ASCII upper-casing of one character, modelling `toUpperCase`. -/
def upperCh (c : Char) : Char :=
  if 0x61 ≤ c.toNat ∧ c.toNat ≤ 0x7A then Char.ofNat (c.toNat - 32) else c

/-- ASCII `toLowerCase` on a character list. -/
def lowerL (s : List Char) : List Char := s.map lowerCh

/-- ASCII `toUpperCase` on a character list. -/
def upperL (s : List Char) : List Char := s.map upperCh

/-- JavaScript `String.prototype.includes`: does `pat` occur as a contiguous
substring of `s`?  (`includes` of the empty pattern is `true`.) -/
def containsSub (pat : List Char) : List Char → Bool
  | [] => pat.isEmpty
  | c :: cs => pat.isPrefixOf (c :: cs) || containsSub pat cs

/-- JavaScript `split` on the newline character: `"".split` gives one empty
piece, and every separator opens a new piece. -/
def splitNl : List Char → List (List Char)
  | [] => [[]]
  | c :: cs =>
    if c = '\n' then [] :: splitNl cs
    else
      match splitNl cs with
      | [] => [[c]]
      | t :: ts => (c :: t) :: ts

/-- Global replacement of a one-character pattern, modelling
`replace(re, r)` for a single-character regex with the `g` flag. -/
def replace1 (p r : Char) : List Char → List Char
  | [] => []
  | c :: cs => (if c = p then r else c) :: replace1 p r cs

/-- Global replacement of a fixed two-character pattern, modelling
`replace(re, r)` for a two-character literal regex with the `g` flag:
scan left to right, never rescanning the replacement. -/
def replace2 (p1 p2 r : Char) : List Char → List Char
  | [] => []
  | [c] => [c]
  | c1 :: c2 :: rest =>
    if c1 = p1 ∧ c2 = p2 then r :: replace2 p1 p2 r rest
    else c1 :: replace2 p1 p2 r (c2 :: rest)

/-- Global replacement of a fixed four-character pattern (used for the literal
`\r\n` escape sequence, four source characters). -/
def replace4 (p1 p2 p3 p4 r : Char) : List Char → List Char
  | c1 :: c2 :: c3 :: c4 :: rest =>
    if c1 = p1 ∧ c2 = p2 ∧ c3 = p3 ∧ c4 = p4 then
      r :: replace4 p1 p2 p3 p4 r rest
    else c1 :: replace4 p1 p2 p3 p4 r (c2 :: c3 :: c4 :: rest)
  | s => s

/-! ### The data sanitizer (`normalizePdbData`, src/visual.ts lines 130 to 160) -/

/-- Condition of the quote-stripping step: the string both starts and ends with
a double quote, or both starts and ends with a single quote. -/
def quoteWrapped (s : List Char) : Bool :=
  (s.head? = some '"' ∧ s.getLast? = some '"') ||
  (s.head? = some '\'' ∧ s.getLast? = some '\'')

/-- Step 1 of the sanitizer: remove one layer of matching surrounding quotes
(`slice(1, -1)` when `quoteWrapped`). -/
def stripQuotes (s : List Char) : List Char :=
  if quoteWrapped s then (s.drop 1).dropLast else s

/-- Step 2: turn the literal escape sequences backslash-r-backslash-n,
backslash-n and backslash-r (in that order) into real newlines. -/
def escRep (s : List Char) : List Char :=
  replace2 '\\' 'r' '\n' (replace2 '\\' 'n' '\n' (replace4 '\\' 'r' '\\' 'n' '\n' s))

/-- Step 3: normalize real CRLF and CR line endings to LF. -/
def crlfNorm (s : List Char) : List Char :=
  replace1 '\r' '\n' (replace2 '\r' '\n' '\n' s)

/-- Step 4: strip one leading byte-order mark (regex anchored at the start,
no `g` flag, so a single occurrence). -/
def bomStrip (s : List Char) : List Char :=
  match s with
  | c :: cs => if c.toNat = 0xFEFF then cs else c :: cs
  | [] => []

/-- Characters removed by step 5 (the class `0x00-0x08, 0x0B, 0x0C,
0x0E-0x1F, 0x7F`; newline and tab survive). -/
def isBadCtrl (c : Char) : Bool :=
  c.toNat ≤ 0x08 || c.toNat = 0x0B || c.toNat = 0x0C ||
  (0x0E ≤ c.toNat && c.toNat ≤ 0x1F) || c.toNat = 0x7F

/-- Step 5: remove the control characters. -/
def ctrlRem (s : List Char) : List Char :=
  s.filter (fun c => !(isBadCtrl c))

/-- Step 6: replace non-breaking spaces by ordinary spaces. -/
def nbspRep (s : List Char) : List Char :=
  s.map (fun c => if c.toNat = 0xA0 then ' ' else c)

/-- The sanitizer `normalizePdbData`: the guard `if (!data) return ""` followed
by the seven text transforms in source order, ending with `trim`. -/
def normalizePdbData (data : List Char) : List Char :=
  if data = [] then []
  else trimL (nbspRep (ctrlRem (bomStrip (crlfNorm (escRep (stripQuotes data))))))

example : normalizePdbData "  ATOM  ".data = "ATOM".data := by decide
example : normalizePdbData "\"ATOM\\nTER\"".data = "ATOM\nTER".data := by decide
example : normalizePdbData "\"\"\"\"".data = "\"\"".data := by decide
example : normalizePdbData "\"\"".data = [] := by decide
example : normalizePdbData "\\\x01nA".data = ['\\', 'n', 'A'] := by decide

/-! ### The format classifier (`detectFormat`, src/visual.ts lines 165 to 220) -/

/-- Supported molecular structure formats (`SUPPORTED_FORMATS`). -/
def SUPPORTED_FORMATS : List (List Char) :=
  ["pdb".data, "cif".data, "mol2".data, "sdf".data, "xyz".data, "cube".data]

/-- Common PDB record types for format detection (`PDB_RECORD_TYPES`). -/
def PDB_RECORD_TYPES : List (List Char) :=
  ["HEADER".data, "ATOM".data, "HETATM".data, "MODEL".data, "COMPND".data,
   "SOURCE".data, "TITLE".data, "REMARK".data, "SEQRES".data, "CRYST1".data]

/-- Matcher for the regex `^\d+$`: at least one character and all digits. -/
def allDigits (s : List Char) : Bool :=
  !s.isEmpty && s.all isDigitCh

/-- Consume one or more digits (`\d+`), returning the rest on success.  The
following regex token is never a digit, so greedy matching is exact. -/
def parseDigits1 (s : List Char) : Option (List Char) :=
  match s with
  | c :: cs => if isDigitCh c then some (cs.dropWhile isDigitCh) else none
  | [] => none

/-- Consume an optional minus sign (`-?`). -/
def parseOptMinus (s : List Char) : List Char :=
  match s with
  | c :: cs => if c = '-' then cs else c :: cs
  | [] => []

/-- Consume a decimal number `-?\d+\.\d+`. -/
def parseDec (s : List Char) : Option (List Char) :=
  match parseDigits1 (parseOptMinus s) with
  | some ('.' :: rest) => parseDigits1 rest
  | _ => none

/-- Consume one or more whitespace characters (`\s+`). -/
def parseWs1 (s : List Char) : Option (List Char) :=
  match s with
  | c :: cs => if isJsWs c then some (cs.dropWhile isJsWs) else none
  | [] => none

/-- Matcher for the cube-format regex
`^\s*-?\d+\s+-?\d+\.\d+\s+-?\d+\.\d+\s+-?\d+\.\d+` applied to line index 2:
optional leading whitespace, an integer, then three decimals separated by
whitespace.  No token can absorb a character the next token needs, so the
greedy left-to-right scan is equivalent to the regex. -/
def cubeLineTest (s : List Char) : Bool :=
  (do
    let r1 ← parseDigits1 (parseOptMinus (s.dropWhile isJsWs))
    let r2 ← parseWs1 r1
    let r3 ← parseDec r2
    let r4 ← parseWs1 r3
    let r5 ← parseDec r4
    let r6 ← parseWs1 r5
    let _ ← parseDec r6
    pure ()).isSome

/-- Scan of the first 20 lines for a recognised PDB record keyword: the first
six characters of a line, trimmed and upper-cased, against
`PDB_RECORD_TYPES`. -/
def pdbScan (lines : List (List Char)) : Bool :=
  (lines.take 20).any (fun l => PDB_RECORD_TYPES.contains (upperL (trimL (l.take 6))))

/-- The format classifier `detectFormat`.  A non-empty (truthy) hint that
lower-cases and trims to a supported tag is returned unconditionally;
otherwise the trimmed text is sniffed with the source's ordered heuristics
(cif, mol2, sdf, xyz, cube, pdb scan, pdb fallback). -/
def detectFormat (data fmt : List Char) : List Char :=
  if fmt ≠ [] ∧ trimL (lowerL fmt) ∈ SUPPORTED_FORMATS then trimL (lowerL fmt)
  else if containsSub "data_".data (trimL data) ||
          containsSub "_entry.id".data (trimL data) ||
          containsSub "_atom_site.".data (trimL data) ||
          containsSub "loop_".data (trimL data) then
    "cif".data
  else if containsSub "@<TRIPOS>".data (trimL data) ||
          containsSub "@<tripos>".data (trimL data) then
    "mol2".data
  else if containsSub "V2000".data (trimL data) || containsSub "V3000".data (trimL data) ||
          containsSub "M  END".data (trimL data) then
    "sdf".data
  else if 2 ≤ (splitNl (trimL data)).length ∧
          allDigits (trimL (splitNl (trimL data)).headI) then
    "xyz".data
  else if containsSub "CUBE FILE".data (trimL data) ||
          (6 < (splitNl (trimL data)).length ∧
            cubeLineTest ((splitNl (trimL data)).getD 2 [])) then
    "cube".data
  else if pdbScan (splitNl (trimL data)) then "pdb".data
  else "pdb".data

/-- The row validity check `isValidStructureData` (src/visual.ts lines 225
to 270): trust explicit supported hints past a length check, otherwise look
for per-format atom markers on the normalized text. -/
def isValidStructureData (data fmt : List Char) : Bool :=
  if data = [] then false
  else
    let normalized := normalizePdbData data
    let format := detectFormat normalized fmt
    if fmt ≠ [] ∧ trimL (lowerL fmt) ∈ SUPPORTED_FORMATS then
      decide (10 < normalized.length)
    else if containsSub "ATOM".data normalized || containsSub "HETATM".data normalized then
      true
    else if containsSub "_atom_site.".data normalized then true
    else if containsSub "@<TRIPOS>ATOM".data normalized ||
            containsSub "@<tripos>atom".data normalized then true
    else if containsSub "V2000".data normalized || containsSub "V3000".data normalized then
      true
    else
      let lines := splitNl normalized
      if 3 ≤ lines.length ∧ allDigits (trimL lines.headI) then true
      else if format = "cube".data then true
      else false

/-- The path-extension classifier `detectFormatFromPath` (src/visual.ts lines
938 to 947): lower-case the path and test the known extensions in source
order, defaulting to pdb. -/
def detectFormatFromPath (filePath : List Char) : List Char :=
  if ".pdb".data.isSuffixOf (lowerL filePath) then "pdb".data
  else if ".cif".data.isSuffixOf (lowerL filePath) ||
          ".mmcif".data.isSuffixOf (lowerL filePath) then "cif".data
  else if ".mol2".data.isSuffixOf (lowerL filePath) then "mol2".data
  else if ".sdf".data.isSuffixOf (lowerL filePath) ||
          ".mol".data.isSuffixOf (lowerL filePath) then "sdf".data
  else if ".xyz".data.isSuffixOf (lowerL filePath) then "xyz".data
  else if ".cube".data.isSuffixOf (lowerL filePath) then "cube".data
  else "pdb".data

example : detectFormat "_atom_site.id".data [] = "cif".data := by decide
example : detectFormat "@<TRIPOS>ATOM".data [] = "mol2".data := by decide
example : detectFormat "@<Tripos>".data [] = "pdb".data := by decide
example : detectFormat "ATOM      1  N   MET A   1".data [] = "pdb".data := by decide
example : detectFormat "5\ncomment".data [] = "xyz".data := by decide
example : detectFormat "t\nc\n  3   0.1   0.2   0.3\na\nb\nc\nd".data [] = "cube".data := by decide
example : detectFormat "ATOM".data " MOL2 ".data = "mol2".data := by decide
example : detectFormatFromPath "X.PDB".data = "pdb".data := by decide
example : detectFormatFromPath "y.MmCIF".data = "cif".data := by decide
example : detectFormatFromPath "z.mol2".data = "mol2".data := by decide
example : detectFormatFromPath "noext".data = "pdb".data := by decide
example : isValidStructureData "ATOM      1  N".data [] = true := by decide
example : isValidStructureData "hello world".data [] = false := by decide
example : isValidStructureData "hello world".data "pdb".data = true := by decide

/-! ### The row validator / extractor (the `validRows` loop of `update`,
src/visual.ts lines 616 to 701) -/

/-- JavaScript `trim` at the `String` level. -/
def jsTrim (s : String) : String := ⟨trimL s.data⟩

/-- ASCII `toLowerCase` at the `String` level. -/
def jsLower (s : String) : String := ⟨lowerL s.data⟩

/-- One Power BI table cell: `none` models a `null` or `undefined` value, and
`some s` models a value whose `String(...)` conversion is `s`. -/
abbrev TableCell := Option String

/-- One Power BI table row: the list of its cells; reading past the end of the
row yields `undefined`, that is `none`. -/
abbrev Row := List TableCell

/-- Role flags of one table column (`dataView.table.columns[i].roles`). -/
structure ColRoles where
  proteinData : Bool := false
  titleData : Bool := false
  formatData : Bool := false
  filePathData : Bool := false
deriving DecidableEq

/-- The table slice of the data view: columns with roles, and rows. -/
structure Table where
  columns : List ColRoles
  rows : List Row
deriving DecidableEq

/-- One entry of the `validRows` array built by `update`: the structure text
(source field `structure`, a reserved word here), title, lower-cased format
hint and file path. -/
structure ValidRow where
  structureText : String
  title : String
  format : String
  filePath : String
deriving DecidableEq

/-- Read `row[i]`, where an out-of-range access is `undefined`. -/
def readCell (row : Row) (i : Nat) : TableCell :=
  (row.get? i).getD none

/-- Read an optional-column cell the way `update` does: when the column is
resolved and the value is neither `null` nor `undefined`, stringify and trim
it, otherwise keep the empty-string default. -/
def readTrimmed (row : Row) (idx : Option Nat) : String :=
  match idx with
  | some i =>
    match readCell row i with
    | some v => jsTrim v
    | none => ""
  | none => ""

/-- The structure-cell absence test used by `update`: empty after trimming, or
the literal strings `null` / `undefined`. -/
def structPresent (s : String) : Prop :=
  s ≠ "" ∧ s ≠ "null" ∧ s ≠ "undefined"

instance (s : String) : Decidable (structPresent s) := by
  unfold structPresent; infer_instance

/-- Processing of one row of the `validRows` loop: returns the record pushed
for this row, or `none` when the row is dropped.  The file path is only
trimmed (the source never compares it with the `null` / `undefined`
sentinels); the format hint is trimmed then lower-cased. -/
def rowRecord (pIdx : Nat) (tIdx fIdx fpIdx : Option Nat) (row : Row) : Option ValidRow :=
  let filePath := readTrimmed row fpIdx
  let structureData :=
    match readCell row pIdx with
    | some v => jsTrim v
    | none => ""
  if structPresent structureData ∨ filePath ≠ "" then
    let format := jsLower (readTrimmed row fIdx)
    let title := readTrimmed row tIdx
    if structPresent structureData then
      if isValidStructureData structureData.data format.data then
        some ⟨structureData, title, format, filePath⟩
      else none
    else if filePath ≠ "" then some ⟨"", title, format, filePath⟩
    else none
  else none

/-- The whole `validRows` loop: rows are visited in order and each one pushes
at most one record. -/
def extractValidRows (pIdx : Nat) (tIdx fIdx fpIdx : Option Nat) (rows : List Row) :
    List ValidRow :=
  rows.filterMap (rowRecord pIdx tIdx fIdx fpIdx)

/-- Resolution of the structure-data column index: the first column carrying
the `proteinData` role, else (fallback) column 0 when any column exists,
else none, in which case `update` returns early. -/
def resolveProteinIndex (cols : List ColRoles) : Option Nat :=
  match cols.findIdx? (fun c => c.proteinData) with
  | some i => some i
  | none => if cols.isEmpty then none else some 0

/-- The records `update` extracts from a data view (empty when the data view,
table rows or structure column are missing). -/
def recordsOf (dv : Option Table) : List ValidRow :=
  match dv with
  | none => []
  | some t =>
    if t.rows.isEmpty then []
    else
      match resolveProteinIndex t.columns with
      | none => []
      | some p =>
        extractValidRows p (t.columns.findIdx? (fun c => c.titleData))
          (t.columns.findIdx? (fun c => c.formatData))
          (t.columns.findIdx? (fun c => c.filePathData)) t.rows

example :
    extractValidRows 0 none none (some 1) [[none, some "undefined"]] =
      [⟨"", "", "", "undefined"⟩] := by decide
example : extractValidRows 0 none none none [[some "undefined"]] = [] := by decide
example :
    extractValidRows 0 none none none [[some "ATOM      1  N"], [some ""]] =
      [⟨"ATOM      1  N", "", "", ""⟩] := by decide

/-! ### The viewer-cell pool (`setupViewerGrid`, src/visual.ts lines 275 to
364 and 1181 to 1264, and the per-record load loop of `updateWith3Dmol`,
lines 822 to 861) -/

/-- One viewer cell of the pool: a creation identity (standing for the DOM
container and engine instance) and the index of the record whose model is
currently loaded (`none` after `removeAllModels` or on a fresh cell). -/
structure Cell where
  id : Nat
  content : Option Nat
deriving DecidableEq

/-- Tail-popping loop of the pool shrink, acting on the reversed pool so the
`pop` of the source's `while (this.viewers.length > count)` is a head
removal.  Returns the remaining reversed pool and the popped cells in pop
order. -/
def dropExtra (count : Nat) : List Cell → List Cell × List Cell
  | [] => ([], [])
  | c :: cs =>
    if count < cs.length + 1 then
      let r := dropExtra count cs
      (r.1, c :: r.2)
    else (c :: cs, [])

/-- Pool shrink: remove cells from the tail while the pool is larger than
`count`; disposed cells are reported in disposal order. -/
def shrinkViewers (count : Nat) (pool : List Cell) : List Cell × List Cell :=
  ((dropExtra count pool.reverse).1.reverse, (dropExtra count pool.reverse).2)

/-- Growth loop with an explicit iteration count: the source's
`while (this.viewers.length < count)` appends exactly `count - length` fresh
cells, each with a new engine instance and no content. -/
def growAux : Nat → Nat → List Cell → List Cell
  | 0, _, pool => pool
  | k + 1, fresh, pool => growAux k (fresh + 1) (pool ++ [⟨fresh, none⟩])

/-- Pool growth: append fresh cells until the pool has `count` cells; `fresh`
supplies the identities of newly created cells. -/
def growViewers (count fresh : Nat) (pool : List Cell) : List Cell :=
  growAux (count - pool.length) fresh pool

/-- The pool half of `setupViewerGrid`: shrink from the tail, then grow,
returning the new pool and the disposed cells.  The background and title
restyling the source also performs does not touch pool membership. -/
def setupViewerGrid (pool : List Cell) (count fresh : Nat) : List Cell × List Cell :=
  (growViewers count fresh (shrinkViewers count pool).1, (shrinkViewers count pool).2)

example : setupViewerGrid [⟨0, none⟩, ⟨1, none⟩] 4 2 =
    ([⟨0, none⟩, ⟨1, none⟩, ⟨2, none⟩, ⟨3, none⟩], []) := by decide
example : setupViewerGrid [⟨0, none⟩, ⟨1, none⟩, ⟨2, none⟩, ⟨3, none⟩, ⟨4, none⟩] 2 9 =
    ([⟨0, none⟩, ⟨1, none⟩], [⟨4, none⟩, ⟨3, none⟩, ⟨2, none⟩]) := by decide

/-- One iteration of the per-record load loop of `updateWith3Dmol` acting on
cell `i`.  The engine's `addModel` may throw; `oracle i = true` means the load
of record `i` succeeds.  The source first clears the cell
(`removeAllModels` / `removeAllSurfaces`), then, for a path-only record,
issues an asynchronous download (the cell stays cleared until the callback
fires after `update` returns); for an inline record it runs
`try addModel + applyStyleToViewer catch log`, so a throwing load leaves the
already-cleared cell and the loop continues. -/
def processRecord (oracle : Nat → Bool) (records : List ValidRow) (i : Nat) (c : Cell) :
    Cell :=
  match records[i]? with
  | none => c
  | some r =>
    if r.structureText = "" ∧ r.filePath ≠ "" then { c with content := none }
    else if oracle i then { c with content := some i }
    else { c with content := none }

/-- The load loop `for (let i = 0; i < validRows.length; i++)` with an explicit
iteration count `k`: process cells `i, i+1, ...` for `k` steps.  Each
iteration is guarded by its own `try`/`catch`, so every iteration runs. -/
def loadAux (oracle : Nat → Bool) (records : List ValidRow) :
    Nat → List Cell → Nat → List Cell
  | 0, pool, _ => pool
  | k + 1, pool, i =>
    match pool[i]? with
    | some c =>
      loadAux oracle records k (pool.set i (processRecord oracle records i c)) (i + 1)
    | none => loadAux oracle records k pool (i + 1)

/-- The whole load loop over `validRows`. -/
def loadCells (oracle : Nat → Bool) (records : List ValidRow) (pool : List Cell) :
    List Cell :=
  loadAux oracle records records.length pool 0

/-- Clearing of one cell on the no-data path of `update`: `removeAllModels`
plus `render` for a 3Dmol cell (`plugin.clear` for a Mol* cell); the cell
itself survives. -/
def clearCell (c : Cell) : Cell := { c with content := none }

/-- The way one call of `update` terminates. -/
inductive UpdateExit where
  | noData
  | noColumn
  | noValidRows
  | rendered
deriving DecidableEq

/-- Result of one `update` call: the new pool, the disposed cells, and the
path `update` took. -/
structure UpdateResult where
  pool : List Cell
  disposed : List Cell
  exit : UpdateExit
deriving DecidableEq

/-- The control flow of `update` (src/visual.ts lines 563 to 715) on the
3Dmol engine path with no engine switch: missing data view / table / rows
clears every cell's models and returns; a missing structure column returns
with the pool untouched; zero extracted records returns with the pool
untouched; otherwise the grid is reconciled to the record count and each
record is loaded into its cell. -/
def updateModel (dv : Option Table) (oracle : Nat → Bool) (pool : List Cell)
    (fresh : Nat) : UpdateResult :=
  match dv with
  | none => ⟨pool.map clearCell, [], .noData⟩
  | some t =>
    if t.rows.isEmpty then ⟨pool.map clearCell, [], .noData⟩
    else
      match resolveProteinIndex t.columns with
      | none => ⟨pool, [], .noColumn⟩
      | some p =>
        let records :=
          extractValidRows p (t.columns.findIdx? (fun c => c.titleData))
            (t.columns.findIdx? (fun c => c.formatData))
            (t.columns.findIdx? (fun c => c.filePathData)) t.rows
        if records.isEmpty then ⟨pool, [], .noValidRows⟩
        else
          let sg := setupViewerGrid pool records.length fresh
          ⟨loadCells oracle records sg.1, sg.2, .rendered⟩

/-! ### The grid column / row computation (`setupViewerGrid`, first lines) -/

/-- Ceiling of the square root of a natural number, the exact value of
`Math.ceil(Math.sqrt(count))` for the (small, integral) record counts. -/
def ceilSqrtNat (n : Nat) : Nat :=
  (((List.range (n + 1)).find? (fun k => n ≤ k * k)).getD n)

/-- Column count: `columns > 0 ? columns : Math.ceil(Math.sqrt(count))`. -/
def gridCols (count pref : Nat) : Nat :=
  if 0 < pref then pref else ceilSqrtNat count

/-- Row count `Math.ceil(count / cols)`.  When `cols = 0` (a zero record
count with automatic columns) the JavaScript division `0 / 0` is `NaN` and so
is its ceiling; that is modelled as `none`. -/
def gridRows (count pref : Nat) : Option Nat :=
  let c := gridCols count pref
  if c = 0 then none else some ((count + c - 1) / c)

/-- The property claimed of the grid shape: the rows exist (not `NaN`), the
grid has at least `count` slots, and one row fewer would not be enough (the
second comparison is over the integers, as in JavaScript). -/
def gridOk (count pref : Nat) : Bool :=
  match gridRows count pref with
  | none => false
  | some r =>
    decide (count ≤ gridCols count pref * r) &&
    decide ((gridCols count pref : Int) * ((r : Int) - 1) < (count : Int))

example : gridCols 7 0 = 3 := by decide
example : gridRows 7 0 = some 3 := by decide
example : gridRows 0 0 = none := by decide
example : gridOk 0 0 = false := by decide
example : gridOk 0 2 = true := by decide
example : gridOk 5 0 = true := by decide
example :
    updateModel (some ⟨[{ proteinData := true }], [[some "ATOM      1  N"]]⟩)
      (fun _ => true) [] 0 =
    ⟨[⟨0, some 0⟩], [], .rendered⟩ := by decide
example :
    updateModel (some ⟨[{}], [[some ""]]⟩) (fun _ => true)
      [⟨0, none⟩, ⟨1, none⟩, ⟨2, none⟩] 9 =
    ⟨[⟨0, none⟩, ⟨1, none⟩, ⟨2, none⟩], [], .noValidRows⟩ := by decide
example :
    updateModel none (fun _ => true) [⟨0, some 0⟩] 1 =
    ⟨[⟨0, none⟩], [], .noData⟩ := by decide
example :
    updateModel (some ⟨[], [[some "x"]]⟩) (fun _ => true) [⟨0, some 0⟩] 1 =
    ⟨[⟨0, some 0⟩], [], .noColumn⟩ := by decide

/-! ### Lemmas about trimming -/

theorem dropTrail_eq_rdropWhile (s : List Char) :
    dropTrail s = List.rdropWhile isJsWs s := rfl

theorem head?_eq_of_isPrefix {l₁ l₂ : List Char} {c : Char} (h : l₁ <+: l₂)
    (hc : l₁.head? = some c) : l₂.head? = some c := by
  obtain ⟨t, rfl⟩ := h
  cases l₁ with
  | nil => simp at hc
  | cons a l => simpa using hc

theorem trimL_head_not_ws {s : List Char} {c : Char}
    (h : (trimL s).head? = some c) : isJsWs c = false := by
  have hpre : trimL s <+: s.dropWhile isJsWs := by
    rw [trimL, dropTrail_eq_rdropWhile]
    exact List.rdropWhile_prefix _ _
  have hh : (s.dropWhile isJsWs).head? = some c := head?_eq_of_isPrefix hpre h
  have hne : s.dropWhile isJsWs ≠ [] := by
    intro hnil; rw [hnil] at hh; simp at hh
  have := List.head_dropWhile_not isJsWs s hne
  have hd : (s.dropWhile isJsWs).head hne = c := by
    rwa [List.head?_eq_head hne, Option.some_inj] at hh
  rw [hd] at this
  simpa using this

theorem dropWhile_eq_self_of_head {p : Char → Bool} {l : List Char}
    (h : ∀ c, l.head? = some c → p c = false) : l.dropWhile p = l := by
  cases l with
  | nil => rfl
  | cons a l =>
    have := h a rfl
    simp [List.dropWhile, this]

theorem trimL_idem (s : List Char) : trimL (trimL s) = trimL s := by
  have h1 : (trimL s).dropWhile isJsWs = trimL s :=
    dropWhile_eq_self_of_head fun c hc => trimL_head_not_ws hc
  show dropTrail ((trimL s).dropWhile isJsWs) = trimL s
  rw [h1, dropTrail_eq_rdropWhile, trimL, dropTrail_eq_rdropWhile,
    List.rdropWhile_idempotent]

theorem mem_trimL {s : List Char} {x : Char} (h : x ∈ trimL s) : x ∈ s := by
  have hpre : trimL s <+: s.dropWhile isJsWs := by
    rw [trimL, dropTrail_eq_rdropWhile]
    exact List.rdropWhile_prefix _ _
  exact (List.dropWhile_sublist _).subset (hpre.subset h)

/-! ### Lemmas about substring containment and replacement -/

theorem contains_head_mem {c : Char} {pat s : List Char}
    (h : containsSub (c :: pat) s = true) : c ∈ s := by
  induction s with
  | nil => simp [containsSub] at h
  | cons a as ih =>
    rw [containsSub, Bool.or_eq_true] at h
    rcases h with h | h
    · rw [ List.isPrefixOf_iff_prefix] at h
      obtain ⟨t, ht⟩ := h
      simp only [List.cons_append, List.cons.injEq] at ht
      exact ht.1 ▸ List.mem_cons_self a as
    · exact List.mem_cons_of_mem a (ih h)

theorem contains_of_larger_pattern {pat₁ pat₂ s : List Char} (hp : pat₁ <+: pat₂)
    (h : containsSub pat₂ s = true) : containsSub pat₁ s = true := by
  induction s with
  | nil =>
    simp only [containsSub, List.isEmpty_iff] at h ⊢
    rw [h] at hp
    exact List.prefix_nil.mp hp
  | cons a as ih =>
    rw [containsSub, Bool.or_eq_true] at h ⊢
    rcases h with h | h
    · exact Or.inl ( List.isPrefixOf_iff_prefix.mpr
        (hp.trans ( List.isPrefixOf_iff_prefix.mp h)))
    · exact Or.inr (ih h)

theorem replace1_eq_self {p r : Char} {s : List Char} (h : p ∉ s) :
    replace1 p r s = s := by
  induction s with
  | nil => rfl
  | cons a as ih =>
    have ha : a ≠ p := fun hap => h (hap ▸ List.mem_cons_self a as)
    have has : p ∉ as := fun hmem => h (List.mem_cons_of_mem a hmem)
    simp [replace1, ha, ih has]

theorem replace1_not_mem {p r : Char} (hr : r ≠ p) (s : List Char) :
    p ∉ replace1 p r s := by
  induction s with
  | nil => simp [replace1]
  | cons a as ih =>
    simp only [replace1, List.mem_cons]
    rintro (h | h)
    · by_cases hap : a = p
      · rw [if_pos hap] at h
        exact hr h.symm
      · rw [if_neg hap] at h
        exact hap h.symm
    · exact ih h

theorem replace2_eq_self {p1 p2 r : Char} {s : List Char}
    (h : containsSub [p1, p2] s = false) : replace2 p1 p2 r s = s := by
  induction s with
  | nil => rfl
  | cons a as ih =>
    rw [containsSub, Bool.or_eq_false_iff] at h
    obtain ⟨hpre, hrest⟩ := h
    cases as with
    | nil => rfl
    | cons b bs =>
      rw [replace2]
      have : ¬(a = p1 ∧ b = p2) := by
        rintro ⟨rfl, rfl⟩
        simp [List.isPrefixOf] at hpre
      rw [if_neg this, ih hrest]

theorem replace4_eq_self {p1 p2 p3 p4 r : Char} {s : List Char}
    (h : containsSub [p1, p2, p3, p4] s = false) : replace4 p1 p2 p3 p4 r s = s := by
  induction s with
  | nil => rfl
  | cons a as ih =>
    rw [containsSub, Bool.or_eq_false_iff] at h
    obtain ⟨hpre, hrest⟩ := h
    cases as with
    | nil => rfl
    | cons b bs =>
      cases bs with
      | nil => rfl
      | cons c cs =>
        cases cs with
        | nil => rfl
        | cons d ds =>
          rw [replace4]
          have : ¬(a = p1 ∧ b = p2 ∧ c = p3 ∧ d = p4) := by
            intro ⟨x1, x2, x3, x4⟩
            rw [x1, x2, x3, x4] at hpre
            simp [List.isPrefixOf] at hpre
          rw [if_neg this, ih hrest]

theorem not_contains_of_not_mem {c : Char} {pat s : List Char} (h : c ∉ s) :
    containsSub (c :: pat) s = false := by
  cases hc : containsSub (c :: pat) s
  · rfl
  · exact absurd (contains_head_mem hc) h

/-! ### Fixpoint lemmas for the individual sanitizer steps -/

theorem stripQuotes_eq_self {s : List Char} (h : quoteWrapped s = false) :
    stripQuotes s = s := by
  rw [stripQuotes, if_neg]
  simp [h]

theorem escRep_eq_self {s : List Char}
    (hn : containsSub ['\\', 'n'] s = false) (hr : containsSub ['\\', 'r'] s = false) :
    escRep s = s := by
  have h4 : containsSub ['\\', 'r', '\\', 'n'] s = false := by
    cases hc : containsSub ['\\', 'r', '\\', 'n'] s
    · rfl
    · rw [ contains_of_larger_pattern ⟨['\\', 'n'], rfl⟩ hc] at hr
      exact absurd hr (by simp)
  rw [escRep, replace4_eq_self h4, replace2_eq_self hn, replace2_eq_self hr]

theorem crlfNorm_eq_self {s : List Char} (h : '\r' ∉ s) : crlfNorm s = s := by
  have h2 : containsSub ['\r', '\n'] s = false := not_contains_of_not_mem h
  rw [crlfNorm, replace2_eq_self h2, replace1_eq_self h]

theorem bomStrip_eq_self {s : List Char}
    (h : ∀ c, s.head? = some c → c.toNat ≠ 0xFEFF) : bomStrip s = s := by
  cases s with
  | nil => rfl
  | cons a as =>
    rw [bomStrip, if_neg (h a rfl)]

theorem ctrlRem_eq_self {s : List Char} (h : ∀ x ∈ s, isBadCtrl x = false) :
    ctrlRem s = s := by
  rw [ctrlRem, List.filter_eq_self]
  intro a ha
  simp [h a ha]

theorem nbspRep_eq_self {s : List Char} (h : ∀ x ∈ s, x.toNat ≠ 0xA0) :
    nbspRep s = s := by
  induction s with
  | nil => rfl
  | cons a as ih =>
    have ha := h a (List.mem_cons_self a as)
    rw [nbspRep, List.map_cons, if_neg ha]
    have := ih fun x hx => h x (List.mem_cons_of_mem a hx)
    rw [nbspRep] at this
    rw [this]

/-! ### Invariants of the sanitizer output -/

theorem crlfNorm_no_cr (s : List Char) : '\r' ∉ crlfNorm s := by
  rw [crlfNorm]
  exact replace1_not_mem (by decide) _

theorem mem_bomStrip {s : List Char} {x : Char} (h : x ∈ bomStrip s) : x ∈ s := by
  cases s with
  | nil => simp [bomStrip] at h
  | cons a as =>
    rw [bomStrip] at h
    by_cases ha : a.toNat = 0xFEFF
    · rw [if_pos ha] at h
      exact List.mem_cons_of_mem a h
    · rwa [if_neg ha] at h

theorem mem_ctrlRem {s : List Char} {x : Char} (h : x ∈ ctrlRem s) : x ∈ s :=
  List.mem_of_mem_filter h

theorem ctrlRem_not_bad {s : List Char} {x : Char} (h : x ∈ ctrlRem s) :
    isBadCtrl x = false := by
  have := List.of_mem_filter h
  simpa using this

theorem mem_nbspRep {s : List Char} {x : Char} (h : x ∈ nbspRep s) :
    x ∈ s ∨ x = ' ' := by
  rw [nbspRep, List.mem_map] at h
  obtain ⟨a, ha, hax⟩ := h
  by_cases hnb : a.toNat = 0xA0
  · rw [if_pos hnb] at hax
    exact Or.inr hax.symm
  · rw [if_neg hnb] at hax
    exact Or.inl (hax ▸ ha)

theorem nbspRep_no_nbsp {s : List Char} {x : Char} (h : x ∈ nbspRep s) :
    x.toNat ≠ 0xA0 := by
  rw [nbspRep, List.mem_map] at h
  obtain ⟨a, _, hax⟩ := h
  by_cases hnb : a.toNat = 0xA0
  · rw [if_pos hnb] at hax
    rw [← hax]
    decide
  · rw [if_neg hnb] at hax
    exact hax ▸ hnb

theorem normalizePdbData_no_cr (s : List Char) : '\r' ∉ normalizePdbData s := by
  rw [normalizePdbData]
  by_cases hs : s = []
  · simp [hs]
  · rw [if_neg hs]
    intro hmem
    have h1 := mem_trimL hmem
    rcases mem_nbspRep h1 with h2 | h2
    · exact crlfNorm_no_cr _ (mem_bomStrip (mem_ctrlRem h2))
    · exact absurd h2 (by decide)

theorem normalizePdbData_no_bad (s : List Char) :
    ∀ x ∈ normalizePdbData s, isBadCtrl x = false := by
  intro x hmem
  rw [normalizePdbData] at hmem
  by_cases hs : s = []
  · simp [hs] at hmem
  · rw [if_neg hs] at hmem
    have h1 := mem_trimL hmem
    rcases mem_nbspRep h1 with h2 | h2
    · exact ctrlRem_not_bad h2
    · rw [h2]
      decide

theorem normalizePdbData_no_nbsp (s : List Char) :
    ∀ x ∈ normalizePdbData s, x.toNat ≠ 0xA0 := by
  intro x hmem
  rw [normalizePdbData] at hmem
  by_cases hs : s = []
  · simp [hs] at hmem
  · rw [if_neg hs] at hmem
    exact nbspRep_no_nbsp (mem_trimL hmem)

theorem normalizePdbData_head_not_ws (s : List Char) :
    ∀ c, (normalizePdbData s).head? = some c → isJsWs c = false := by
  intro c hc
  rw [normalizePdbData] at hc
  by_cases hs : s = []
  · simp [hs] at hc
  · rw [if_neg hs] at hc
    exact trimL_head_not_ws hc

theorem normalizePdbData_trimmed (s : List Char) :
    trimL (normalizePdbData s) = normalizePdbData s := by
  rw [normalizePdbData]
  by_cases hs : s = []
  · simp [hs, trimL, dropTrail]
  · rw [if_neg hs]
    exact trimL_idem _

theorem isJsWs_of_feff {c : Char} (h : c.toNat = 0xFEFF) : isJsWs c = true := by
  simp [isJsWs, h]

/-! ### Claim C9 -/

theorem rowRecord_some_nonempty {pIdx : Nat} {tIdx fIdx fpIdx : Option Nat} {row : Row}
    {r : ValidRow} (h : rowRecord pIdx tIdx fIdx fpIdx row = some r) :
    r.structureText ≠ "" ∨ r.filePath ≠ "" := by
  simp only [rowRecord] at h
  split at h
  · split at h
    · split at h
      · rename_i hqual hsp hvalid
        obtain rfl := Option.some_inj.mp h.symm
        exact Or.inl hsp.1
      · exact absurd h (by simp)
    · split at h
      · rename_i hqual hsp hfp
        obtain rfl := Option.some_inj.mp h.symm
        exact Or.inr hfp
      · exact absurd h (by simp)
  · exact absurd h (by simp)

/-- Claim C9.  The extractor emits, in input order, the image of an in-order
sublist of the rows (no reordering, no de-duplication: each output record is
tied to its own row by `Forall₂`), and every emitted record carries a
non-empty structure text or a non-empty file path. -/
theorem extract_subsequence (pIdx : Nat) (tIdx fIdx fpIdx : Option Nat) (rows : List Row) :
    (∃ sub, sub.Sublist rows ∧
      List.Forall₂ (fun row r => rowRecord pIdx tIdx fIdx fpIdx row = some r) sub
        (extractValidRows pIdx tIdx fIdx fpIdx rows)) ∧
    ∀ r ∈ extractValidRows pIdx tIdx fIdx fpIdx rows,
      r.structureText ≠ "" ∨ r.filePath ≠ "" := by
  constructor
  · induction rows with
    | nil => exact ⟨[], List.Sublist.refl [], List.Forall₂.nil⟩
    | cons row rest ih =>
      obtain ⟨sub, hs, hf⟩ := ih
      cases h : rowRecord pIdx tIdx fIdx fpIdx row with
      | none =>
        refine ⟨sub, hs.cons row, ?_⟩
        rw [extractValidRows, List.filterMap_cons_none h]
        exact hf
      | some r =>
        refine ⟨row :: sub, hs.cons₂ row, ?_⟩
        rw [extractValidRows, List.filterMap_cons_some h]
        exact List.Forall₂.cons h hf
  · intro r hr
    rw [extractValidRows, List.mem_filterMap] at hr
    obtain ⟨row, _, h⟩ := hr
    exact rowRecord_some_nonempty h

/-- Claim C9, witness: the invariant instantiated on the record extracted
from one concrete PDB row. -/
theorem extract_subsequence_witness :
    (⟨"ATOM      1  N", "", "", ""⟩ : ValidRow) ∈
      extractValidRows 0 none none none [[some "ATOM      1  N"]] ∧
    ((⟨"ATOM      1  N", "", "", ""⟩ : ValidRow).structureText ≠ "" ∨
      (⟨"ATOM      1  N", "", "", ""⟩ : ValidRow).filePath ≠ "") :=
  ⟨by decide,
    (extract_subsequence 0 none none none [[some "ATOM      1  N"]]).2
      ⟨"ATOM      1  N", "", "", ""⟩ (by decide)⟩

/-! ### Claim C1 -/

/-- Claim C1, counterexample.  The sanitizer is not idempotent: on the input
of four double quotes, the first pass strips the outer quote pair (leaving two
quotes), and a second pass strips again (leaving the empty string), so
sanitize of sanitize differs from sanitize. -/
theorem normalizePdbData_not_idempotent :
    normalizePdbData (normalizePdbData "\"\"\"\"".data) ≠
      normalizePdbData "\"\"\"\"".data := by decide

/-- Claim C1, amended.  The sanitizer is idempotent on every input whose
sanitized form is not wrapped in a matching quote pair and contains neither a
literal backslash-n nor a literal backslash-r escape sequence (the quote strip
and the escape replacement are the only non-idempotent steps; the remaining
five steps are always fixed on sanitizer output). -/
theorem normalizePdbData_idem (s : List Char)
    (hq : quoteWrapped (normalizePdbData s) = false)
    (hn : containsSub ['\\', 'n'] (normalizePdbData s) = false)
    (hr : containsSub ['\\', 'r'] (normalizePdbData s) = false) :
    normalizePdbData (normalizePdbData s) = normalizePdbData s := by
  by_cases ht : normalizePdbData s = []
  · rw [ht]
    rfl
  · have hbom : ∀ c, (normalizePdbData s).head? = some c → c.toNat ≠ 0xFEFF := by
      intro c hc hfe
      have hws := normalizePdbData_head_not_ws s c hc
      rw [isJsWs_of_feff hfe] at hws
      exact absurd hws (by decide)
    conv_lhs => rw [normalizePdbData]
    rw [if_neg ht, stripQuotes_eq_self hq, escRep_eq_self hn hr,
      crlfNorm_eq_self (normalizePdbData_no_cr s), bomStrip_eq_self hbom,
      ctrlRem_eq_self (normalizePdbData_no_bad s),
      nbspRep_eq_self (normalizePdbData_no_nbsp s), normalizePdbData_trimmed]

/-! ### Claim C3 -/

/-- Claim C3, counterexample.  Mol2 detection is not case-insensitive: the
text consisting of the single marker in mixed casing contains the TRIPOS
marker up to letter case and none of the CIF markers, yet `detectFormat`
with no hint classifies it as pdb (the source only tests the all-upper and
all-lower spellings). -/
theorem detectFormat_tripos_mixed_case_pdb :
    containsSub (lowerL "@<TRIPOS>".data) (lowerL "@<Tripos>".data) = true ∧
    containsSub "data_".data "@<Tripos>".data = false ∧
    containsSub "_entry.id".data "@<Tripos>".data = false ∧
    containsSub "_atom_site.".data "@<Tripos>".data = false ∧
    containsSub "loop_".data "@<Tripos>".data = false ∧
    detectFormat "@<Tripos>".data [] = "pdb".data ∧
    "pdb".data ≠ "mol2".data := by decide

/-- Claim C3, amended.  For every trimmed text containing the marker in one
of the two spellings the source tests, all-upper `@<TRIPOS>` or all-lower
`@<tripos>` (but not other casings), and containing none of the CIF markers,
`detectFormat` with no hint returns mol2. -/
theorem detectFormat_tripos_exact (s : List Char) (hT : trimL s = s)
    (hm : containsSub "@<TRIPOS>".data s = true ∨ containsSub "@<tripos>".data s = true)
    (h1 : containsSub "data_".data s = false)
    (h2 : containsSub "_entry.id".data s = false)
    (h3 : containsSub "_atom_site.".data s = false)
    (h4 : containsSub "loop_".data s = false) :
    detectFormat s [] = "mol2".data := by
  cases hm with
  | inl hm => simp [detectFormat, hT, h1, h2, h3, h4, hm]
  | inr hm => simp [detectFormat, hT, h1, h2, h3, h4, hm]

/-- Claim C3, witness for the amended theorem at a concrete input. -/
theorem detectFormat_tripos_exact_witness :
    trimL "@<TRIPOS>ATOM".data = "@<TRIPOS>ATOM".data ∧
    containsSub "@<TRIPOS>".data "@<TRIPOS>ATOM".data = true ∧
    detectFormat "@<TRIPOS>ATOM".data [] = "mol2".data :=
  ⟨by decide, by decide,
    detectFormat_tripos_exact _ (by decide) (Or.inl (by decide)) (by decide) (by decide)
      (by decide) (by decide)⟩

/-! ### Claim C8 -/

/-- Claim C8.  An explicit hint that trims and lower-cases to one of the six
supported tags is returned unconditionally, whatever the text says. -/
theorem detectFormat_hint_override (text hint tag : List Char)
    (htag : tag ∈ SUPPORTED_FORMATS) (hh : trimL (lowerL hint) = tag) :
    detectFormat text hint = tag := by
  have hne : hint ≠ [] := by
    rintro rfl
    have h0 : trimL (lowerL []) = [] := by decide
    rw [h0] at hh
    rw [← hh] at htag
    revert htag
    decide
  rw [detectFormat, if_pos ⟨hne, hh ▸ htag⟩, hh]

/-- Claim C8, witness: a hint of padded upper-case MOL2 overrides text that
matches the PDB heuristics. -/
theorem detectFormat_hint_override_witness :
    "mol2".data ∈ SUPPORTED_FORMATS ∧
    trimL (lowerL " MOL2 ".data) = "mol2".data ∧
    detectFormat "ATOM      1  N   MET A   1".data " MOL2 ".data = "mol2".data :=
  ⟨by decide, by decide,
    detectFormat_hint_override _ _ _ (by decide) (by decide)⟩

/-! ### Claim C10 -/

theorem suffix_eq_of_length_eq {l s1 s2 : List Char} (h1 : s1 <:+ l) (h2 : s2 <:+ l)
    (hlen : s1.length = s2.length) : s1 = s2 := by
  obtain ⟨t1, rfl⟩ := h1
  obtain ⟨t2, ht⟩ := h2
  exact (List.append_inj_right' ht hlen.symm).symm

/-- Two extension patterns cannot both match the end of a path: when `a` is a
suffix of the path and `c`, a piece of `b` with the length of `a`, differs
from `a`, then `b` is not a suffix of the path. -/
theorem suffix_conflict {l a b c : List Char} (ha : a <:+ l) (hc : c <:+ b)
    (hlen : a.length = c.length) (hne : a ≠ c) : ¬b <:+ l :=
  fun hb => hne (suffix_eq_of_length_eq ha (hc.trans hb) hlen)

/-- Claim C10.  The path classifier is total with values among the six tags,
is driven by the lower-cased path, maps each recognised extension to its tag,
and every other path to pdb. -/
theorem detectFormatFromPath_spec (p : List Char) :
    (".pdb".data <:+ lowerL p → detectFormatFromPath p = "pdb".data) ∧
    ((".cif".data <:+ lowerL p ∨ ".mmcif".data <:+ lowerL p) →
      detectFormatFromPath p = "cif".data) ∧
    (".mol2".data <:+ lowerL p → detectFormatFromPath p = "mol2".data) ∧
    ((".sdf".data <:+ lowerL p ∨ ".mol".data <:+ lowerL p) →
      detectFormatFromPath p = "sdf".data) ∧
    (".xyz".data <:+ lowerL p → detectFormatFromPath p = "xyz".data) ∧
    (".cube".data <:+ lowerL p → detectFormatFromPath p = "cube".data) ∧
    ((¬".pdb".data <:+ lowerL p ∧ ¬".cif".data <:+ lowerL p ∧
      ¬".mmcif".data <:+ lowerL p ∧ ¬".mol2".data <:+ lowerL p ∧
      ¬".sdf".data <:+ lowerL p ∧ ¬".mol".data <:+ lowerL p ∧
      ¬".xyz".data <:+ lowerL p ∧ ¬".cube".data <:+ lowerL p) →
      detectFormatFromPath p = "pdb".data) ∧
    detectFormatFromPath p ∈ SUPPORTED_FORMATS := by
  refine ⟨?_, ?_, ?_, ?_, ?_, ?_, ?_, ?_⟩
  · intro h
    simp [detectFormatFromPath, h]
  · rintro (h | h)
    · have hpdb := suffix_conflict h (List.suffix_refl ".pdb".data) (by decide) (by decide)
      simp [detectFormatFromPath, h, hpdb]
    · have h4 : "mcif".data <:+ lowerL p :=
        List.IsSuffix.trans (by decide) h
      have hpdb := suffix_conflict h4 (List.suffix_refl ".pdb".data) (by decide) (by decide)
      simp [detectFormatFromPath, h, hpdb]
  · intro h
    have h4 : "mol2".data <:+ lowerL p := List.IsSuffix.trans (by decide) h
    have hpdb := suffix_conflict h4 (List.suffix_refl ".pdb".data) (by decide) (by decide)
    have hcif := suffix_conflict h4 (List.suffix_refl ".cif".data) (by decide) (by decide)
    have hmm := suffix_conflict h4 (show "mcif".data <:+ ".mmcif".data by decide)
      (by decide) (by decide)
    simp [detectFormatFromPath, h, hpdb, hcif, hmm]
  · rintro (h | h)
    · have hpdb := suffix_conflict h (List.suffix_refl ".pdb".data) (by decide) (by decide)
      have hcif := suffix_conflict h (List.suffix_refl ".cif".data) (by decide) (by decide)
      have hmm := suffix_conflict h (show "mcif".data <:+ ".mmcif".data by decide)
        (by decide) (by decide)
      have hmol2 := suffix_conflict h (show "mol2".data <:+ ".mol2".data by decide)
        (by decide) (by decide)
      simp [detectFormatFromPath, h, hpdb, hcif, hmm, hmol2]
    · have hpdb := suffix_conflict h (List.suffix_refl ".pdb".data) (by decide) (by decide)
      have hcif := suffix_conflict h (List.suffix_refl ".cif".data) (by decide) (by decide)
      have hmm := suffix_conflict h (show "mcif".data <:+ ".mmcif".data by decide)
        (by decide) (by decide)
      have hmol2 := suffix_conflict h (show "mol2".data <:+ ".mol2".data by decide)
        (by decide) (by decide)
      simp [detectFormatFromPath, h, hpdb, hcif, hmm, hmol2]
  · intro h
    have hpdb := suffix_conflict h (List.suffix_refl ".pdb".data) (by decide) (by decide)
    have hcif := suffix_conflict h (List.suffix_refl ".cif".data) (by decide) (by decide)
    have hmm := suffix_conflict h (show "mcif".data <:+ ".mmcif".data by decide)
      (by decide) (by decide)
    have hmol2 := suffix_conflict h (show "mol2".data <:+ ".mol2".data by decide)
      (by decide) (by decide)
    have hsdf := suffix_conflict h (List.suffix_refl ".sdf".data) (by decide) (by decide)
    have hmol := suffix_conflict h (List.suffix_refl ".mol".data) (by decide) (by decide)
    simp [detectFormatFromPath, h, hpdb, hcif, hmm, hmol2, hsdf, hmol]
  · intro h
    have h4 : "cube".data <:+ lowerL p := List.IsSuffix.trans (by decide) h
    have hpdb := suffix_conflict h4 (List.suffix_refl ".pdb".data) (by decide) (by decide)
    have hcif := suffix_conflict h4 (List.suffix_refl ".cif".data) (by decide) (by decide)
    have hmm := suffix_conflict h4 (show "mcif".data <:+ ".mmcif".data by decide)
      (by decide) (by decide)
    have hmol2 := suffix_conflict h4 (show "mol2".data <:+ ".mol2".data by decide)
      (by decide) (by decide)
    have hsdf := suffix_conflict h4 (List.suffix_refl ".sdf".data) (by decide) (by decide)
    have hmol := suffix_conflict h4 (List.suffix_refl ".mol".data) (by decide) (by decide)
    have hxyz := suffix_conflict h4 (List.suffix_refl ".xyz".data) (by decide) (by decide)
    simp [detectFormatFromPath, h, hpdb, hcif, hmm, hmol2, hsdf, hmol, hxyz]
  · rintro ⟨h1, h2, h3, h4, h5, h6, h7, h8⟩
    simp [detectFormatFromPath, h1, h2, h3, h4, h5, h6, h7, h8]
  · rw [detectFormatFromPath]
    split_ifs <;> decide

/-- Claim C10, witness at concrete inputs: an upper-case extension and a
mixed-case mmcif extension. -/
theorem detectFormatFromPath_spec_witness :
    (".pdb".data <:+ lowerL "X.PDB".data) ∧
    detectFormatFromPath "X.PDB".data = "pdb".data ∧
    (".mmcif".data <:+ lowerL "y.MmCIF".data) ∧
    detectFormatFromPath "y.MmCIF".data = "cif".data :=
  ⟨by decide, (detectFormatFromPath_spec "X.PDB".data).1 (by decide), by decide,
    (detectFormatFromPath_spec "y.MmCIF".data).2.1 (Or.inr (by decide))⟩

/-! ### Claim C4 -/

/-- Claim C4, counterexample.  At record count 0 with column preference 0 the
computed column count is 0 and the row count is `Math.ceil(0 / 0)`, that is
`NaN` (modelled `none`), so neither claimed inequality holds: `gridOk`, the
conjunction of the two inequalities, is false at this pair. -/
theorem grid_inequalities_fail_at_zero_zero : gridOk 0 0 = false := by decide

/-- Claim C4, amended.  For record counts in 0, 1, 5, 7 and column
preferences in 0, 2, 3, except the pair count = 0 with preference = 0 (where
the row count is the ceiling of 0 / 0, `NaN`), the computed grid satisfies
both inequalities: columns times rows is at least the count, and columns
times (rows minus one) is below the count (over the integers). -/
theorem grid_inequalities_hold (count pref : Nat)
    (hc : count ∈ [0, 1, 5, 7]) (hp : pref ∈ [0, 2, 3])
    (hne : ¬(count = 0 ∧ pref = 0)) : gridOk count pref = true := by
  simp only [List.mem_cons, List.mem_singleton, List.not_mem_nil, or_false] at hc hp
  rcases hc with rfl | rfl | rfl | rfl <;> rcases hp with rfl | rfl | rfl <;>
    first
      | decide
      | exact absurd ⟨rfl, rfl⟩ hne

/-- Claim C4, witness for the amended theorem at count 5, preference 0. -/
theorem grid_inequalities_hold_witness :
    (5 ∈ [0, 1, 5, 7] ∧ 0 ∈ [0, 2, 3] ∧ ¬(5 = 0 ∧ 0 = 0)) ∧ gridOk 5 0 = true :=
  ⟨by decide, grid_inequalities_hold 5 0 (by decide) (by decide) (by decide)⟩

/-! ### Lemmas about the viewer pool -/

theorem dropExtra_eq (count : Nat) (rp : List Cell) :
    dropExtra count rp =
      (rp.drop (rp.length - count), rp.take (rp.length - count)) := by
  induction rp with
  | nil => simp [dropExtra]
  | cons c cs ih =>
    rw [dropExtra]
    by_cases h : count < cs.length + 1
    · rw [if_pos h, ih]
      have hk : (c :: cs).length - count = (cs.length - count) + 1 := by
        simp only [List.length_cons]
        omega
      rw [hk, List.drop_succ_cons, List.take_succ_cons]
    · rw [if_neg h]
      have hk : (c :: cs).length - count = 0 := by
        simp only [List.length_cons]
        omega
      rw [hk, List.drop_zero, List.take_zero]

theorem shrinkViewers_fst_length (count : Nat) (pool : List Cell) :
    (shrinkViewers count pool).1.length = pool.length - (pool.length - count) := by
  rw [shrinkViewers, dropExtra_eq]
  simp

theorem growAux_length (k : Nat) :
    ∀ fresh pool, (growAux k fresh pool).length = pool.length + k := by
  induction k with
  | zero => intro f p; rfl
  | succ n ih =>
    intro f p
    rw [growAux, ih]
    simp only [List.length_append, List.length_cons, List.length_nil]
    omega

theorem setupViewerGrid_fst_length (pool : List Cell) (count fresh : Nat) :
    (setupViewerGrid pool count fresh).1.length = count := by
  rw [setupViewerGrid]
  simp only [growViewers, growAux_length, shrinkViewers_fst_length]
  omega

theorem loadAux_length (oracle : Nat → Bool) (records : List ValidRow) (k : Nat) :
    ∀ pool i, (loadAux oracle records k pool i).length = pool.length := by
  induction k with
  | zero => intro pool i; rfl
  | succ n ih =>
    intro pool i
    rw [loadAux]
    cases h : pool[i]? with
    | none => simp only [h, ih]
    | some c => simp only [h, ih, List.length_set]

theorem loadCells_length (oracle : Nat → Bool) (records : List ValidRow)
    (pool : List Cell) : (loadCells oracle records pool).length = pool.length := by
  rw [loadCells, loadAux_length]

/-! ### Claim C2 -/

/-- Claim C2, counterexample.  When the extractor produces zero valid records
(here: one row whose structure cell is the empty string), `update` returns
early and the pool keeps its previous three cells, so the pool size does not
equal the record count zero. -/
theorem pool_size_not_record_count_at_zero :
    (updateModel (some ⟨[{}], [[some ""]]⟩) (fun _ => true)
      [⟨0, none⟩, ⟨1, none⟩, ⟨2, none⟩] 9).pool.length = 3 ∧
    (recordsOf (some ⟨[{}], [[some ""]]⟩)).length = 0 ∧ (3 : Nat) ≠ 0 := by decide

/-- Claim C2, amended.  Whenever `update` reaches the grid-reconciliation
path (at least one valid record), the pool size after the update equals the
valid-record count; and shrinking a five-cell pool to two cells disposes
exactly the cells at indices 2, 3 and 4 (popped from the tail, so in the
order 4, 3, 2) and keeps cells 0 and 1 untouched.  When the record count is
zero, `update` returns before reconciling and the pool keeps its old size. -/
theorem pool_size_eq_record_count (dv : Option Table) (oracle : Nat → Bool)
    (pool : List Cell) (fresh : Nat) (c0 c1 c2 c3 c4 : Cell) (f : Nat)
    (h : (updateModel dv oracle pool fresh).exit = .rendered) :
    (updateModel dv oracle pool fresh).pool.length = (recordsOf dv).length ∧
    setupViewerGrid [c0, c1, c2, c3, c4] 2 f = ([c0, c1], [c4, c3, c2]) := by
  refine ⟨?_, rfl⟩
  cases dv with
  | none => simp [updateModel] at h
  | some t =>
    by_cases hrows : t.rows.isEmpty
    · simp [updateModel, hrows] at h
    · cases hp : resolveProteinIndex t.columns with
      | none => simp [updateModel, hrows, hp] at h
      | some p =>
        by_cases hrecs :
            (extractValidRows p (t.columns.findIdx? (fun c => c.titleData))
              (t.columns.findIdx? (fun c => c.formatData))
              (t.columns.findIdx? (fun c => c.filePathData)) t.rows).isEmpty
        · simp [updateModel, hrows, hp, hrecs] at h
        · simp only [updateModel, recordsOf, hrows, hp, hrecs, if_false,
            Bool.false_eq_true, if_neg]
          rw [loadCells_length, setupViewerGrid_fst_length]

/-- Claim C2, witness for the amended theorem: one valid record grows an
empty pool to exactly one cell, and the five-to-two shrink example. -/
theorem pool_size_eq_record_count_witness :
    (updateModel (some ⟨[{ proteinData := true }], [[some "ATOM      1  N"]]⟩)
        (fun _ => true) [] 0).exit = .rendered ∧
    (updateModel (some ⟨[{ proteinData := true }], [[some "ATOM      1  N"]]⟩)
        (fun _ => true) [] 0).pool.length =
      (recordsOf (some ⟨[{ proteinData := true }], [[some "ATOM      1  N"]]⟩)).length ∧
    setupViewerGrid [⟨0, some 0⟩, ⟨1, some 1⟩, ⟨2, some 2⟩, ⟨3, some 3⟩, ⟨4, some 4⟩] 2 5 =
      ([⟨0, some 0⟩, ⟨1, some 1⟩], [⟨4, some 4⟩, ⟨3, some 3⟩, ⟨2, some 2⟩]) :=
  ⟨by decide,
    (pool_size_eq_record_count _ _ _ _ ⟨0, some 0⟩ ⟨1, some 1⟩ ⟨2, some 2⟩ ⟨3, some 3⟩
      ⟨4, some 4⟩ 5 (by decide)).1,
    (pool_size_eq_record_count (some ⟨[{ proteinData := true }], [[some "ATOM      1  N"]]⟩)
      (fun _ => true) [] 0 ⟨0, some 0⟩ ⟨1, some 1⟩ ⟨2, some 2⟩ ⟨3, some 3⟩
      ⟨4, some 4⟩ 5 (by decide)).2⟩

theorem loadAux_getElem? (oracle : Nat → Bool) (records : List ValidRow) (k : Nat) :
    ∀ (pool : List Cell) (i j : Nat) (c : Cell), pool[j]? = some c →
      (loadAux oracle records k pool i)[j]? =
        some (if i ≤ j ∧ j < i + k then processRecord oracle records j c else c) := by
  induction k with
  | zero =>
    intro pool i j c hc
    have hno : ¬(i ≤ j ∧ j < i + 0) := by omega
    rw [loadAux, if_neg hno]
    exact hc
  | succ n ih =>
    intro pool i j c hc
    rw [loadAux]
    cases hgi : pool[i]? with
    | none =>
      have hj : j < pool.length := (List.getElem?_eq_some_iff.mp hc).1
      have hi : pool.length ≤ i := List.getElem?_eq_none_iff.mp hgi
      rw [ih pool (i + 1) j c hc]
      have h1 : ¬(i + 1 ≤ j ∧ j < i + 1 + n) := by omega
      have h2 : ¬(i ≤ j ∧ j < i + (n + 1)) := by omega
      rw [if_neg h1, if_neg h2]
    | some ci =>
      by_cases hij : j = i
      · subst hij
        have hcc : ci = c := by
          rw [hgi] at hc
          exact Option.some_inj.mp hc
        subst hcc
        have hlt : j < pool.length := (List.getElem?_eq_some_iff.mp hc).1
        have hset : (pool.set j (processRecord oracle records j ci))[j]? =
            some (processRecord oracle records j ci) := by
          rw [List.getElem?_set_self (by simpa using hlt)]
        rw [ih _ (j + 1) j _ hset]
        have h1 : ¬(j + 1 ≤ j ∧ j < j + 1 + n) := by omega
        have h2 : j ≤ j ∧ j < j + (n + 1) := by omega
        rw [if_neg h1, if_pos h2]
      · have hset : (pool.set i (processRecord oracle records i ci))[j]? = some c := by
          rw [List.getElem?_set_ne (by omega)]
          exact hc
        rw [ih _ (i + 1) j c hset]
        by_cases hcond : i + 1 ≤ j ∧ j < i + 1 + n
        · have h2 : i ≤ j ∧ j < i + (n + 1) := by omega
          rw [if_pos hcond, if_pos h2]
        · have h2 : ¬(i ≤ j ∧ j < i + (n + 1)) := by omega
          rw [if_neg hcond, if_neg h2]

theorem loadCells_getElem? (oracle : Nat → Bool) (records : List ValidRow)
    (pool : List Cell) (j : Nat) (c : Cell) (hc : pool[j]? = some c) :
    (loadCells oracle records pool)[j]? =
      some (if j < records.length then processRecord oracle records j c else c) := by
  rw [loadCells, loadAux_getElem? oracle records records.length pool 0 j c hc]
  by_cases hj : j < records.length
  · rw [if_pos ⟨Nat.zero_le j, by omega⟩, if_pos hj]
  · rw [if_neg (by omega), if_neg hj]

/-! ### Claim C7 -/

/-- Claim C7.  A failing engine load for record `i` (`oracle i = false`) is
confined to cell `i`: that cell is left empty (its models were cleared before
the failing call, and the `catch` swallows the exception), every later cell
`j` is still processed exactly as its own record and oracle value dictate,
and the pool itself survives with its length intact — no per-record failure
aborts the batch. -/
theorem per_record_failure_contained (oracle : Nat → Bool) (records : List ValidRow)
    (pool : List Cell) (i j : Nat) (ci cj : Cell)
    (hfail : oracle i = false) (hij : i < j) (hjlen : j < records.length)
    (hi : pool[i]? = some ci) (hj : pool[j]? = some cj) :
    (loadCells oracle records pool)[i]? = some { ci with content := none } ∧
    (loadCells oracle records pool)[j]? = some (processRecord oracle records j cj) ∧
    (loadCells oracle records pool).length = pool.length := by
  have hilen : i < records.length := by omega
  refine ⟨?_, ?_, loadCells_length oracle records pool⟩
  · rw [loadCells_getElem? oracle records pool i ci hi, if_pos hilen]
    cases hri : records[i]? with
    | none =>
      exact absurd (List.getElem?_eq_none_iff.mp hri) (by omega)
    | some ri =>
      simp only [processRecord, hri, hfail]
      split <;> rfl
  · rw [loadCells_getElem? oracle records pool j cj hj, if_pos hjlen]

/-- Claim C7, witness: with two inline records where the first load throws
and the second succeeds, cell 0 ends empty and cell 1 is still styled with
record 1. -/
theorem per_record_failure_contained_witness :
    ((fun n => n == 1) 0 = false ∧ (0 : Nat) < 1 ∧
      (1 : Nat) < ([⟨"A", "", "", ""⟩, ⟨"B", "", "", ""⟩] : List ValidRow).length) ∧
    (loadCells (fun n => n == 1) [⟨"A", "", "", ""⟩, ⟨"B", "", "", ""⟩]
        [⟨0, some 7⟩, ⟨1, some 9⟩])[0]? = some ⟨0, none⟩ ∧
    (loadCells (fun n => n == 1) [⟨"A", "", "", ""⟩, ⟨"B", "", "", ""⟩]
        [⟨0, some 7⟩, ⟨1, some 9⟩])[1]? = some ⟨1, some 1⟩ :=
  ⟨⟨rfl, by decide, by decide⟩,
    (per_record_failure_contained (fun n => n == 1) [⟨"A", "", "", ""⟩, ⟨"B", "", "", ""⟩]
      [⟨0, some 7⟩, ⟨1, some 9⟩] 0 1 ⟨0, some 7⟩ ⟨1, some 9⟩ rfl (by decide) (by decide)
      rfl rfl).1,
    (per_record_failure_contained (fun n => n == 1) [⟨"A", "", "", ""⟩, ⟨"B", "", "", ""⟩]
      [⟨0, some 7⟩, ⟨1, some 9⟩] 0 1 ⟨0, some 7⟩ ⟨1, some 9⟩ rfl (by decide) (by decide)
      rfl rfl).2.1⟩

/-! ### Claim C5 -/

/-- Claim C5, counterexample.  On the no-usable-column path (a table with
rows but an empty column list) `update` returns normally but does not clear
the visible cells: a cell that still shows record 0 keeps its content, so the
claimed clearing of all visible cells does not happen on every input-absent
path. -/
theorem no_column_path_does_not_clear :
    (updateModel (some ⟨[], [[some "x"]]⟩) (fun _ => true) [⟨0, some 0⟩] 1 =
      ⟨[⟨0, some 0⟩], [], .noColumn⟩) ∧
    [⟨0, some 0⟩] ≠ [Cell.mk 0 none] := by decide

/-- Claim C5, amended.  Every input-absent update returns normally (a plain
early return, never a raised exception), but only the no-data-view / no-rows
path clears the visible cells (every cell keeps its identity with its models
removed); the no-usable-structure-column path returns with the cells exactly
as they were. -/
theorem input_absence_paths (dv : Option Table) (oracle : Nat → Bool)
    (pool : List Cell) (fresh : Nat) :
    (dv = none →
      updateModel dv oracle pool fresh = ⟨pool.map clearCell, [], .noData⟩) ∧
    (∀ t, dv = some t → t.rows = [] →
      updateModel dv oracle pool fresh = ⟨pool.map clearCell, [], .noData⟩) ∧
    (∀ t, dv = some t → t.rows ≠ [] → resolveProteinIndex t.columns = none →
      updateModel dv oracle pool fresh = ⟨pool, [], .noColumn⟩) := by
  refine ⟨?_, ?_, ?_⟩
  · rintro rfl
    rfl
  · rintro t rfl hrows
    simp [updateModel, hrows]
  · rintro t rfl hrows hcol
    have hne : ¬t.rows.isEmpty := by
      simpa [List.isEmpty_iff] using hrows
    simp [updateModel, hne, hcol]

/-- Claim C5, witness for the amended theorem on concrete inputs for each of
the three input-absent paths. -/
theorem input_absence_paths_witness :
    (updateModel none (fun _ => true) [⟨0, some 0⟩] 1 =
      ⟨[⟨0, none⟩], [], .noData⟩) ∧
    (updateModel (some ⟨[{}], []⟩) (fun _ => true) [⟨0, some 0⟩] 1 =
      ⟨[⟨0, none⟩], [], .noData⟩) ∧
    (updateModel (some ⟨[], [[some "x"]]⟩) (fun _ => true) [⟨0, some 0⟩] 1 =
      ⟨[⟨0, some 0⟩], [], .noColumn⟩) :=
  ⟨(input_absence_paths none (fun _ => true) [⟨0, some 0⟩] 1).1 rfl,
    (input_absence_paths (some ⟨[{}], []⟩) (fun _ => true) [⟨0, some 0⟩] 1).2.1
      ⟨[{}], []⟩ rfl rfl,
    (input_absence_paths (some ⟨[], [[some "x"]]⟩) (fun _ => true) [⟨0, some 0⟩] 1).2.2
      ⟨[], [[some "x"]]⟩ rfl (by decide) (by decide)⟩

/-! ### Claim C6 -/

/-- Claim C6, counterexample.  A row whose only content is a file-path cell
holding the literal string `undefined` does produce a record: the file path is
only stringified and trimmed, never compared with the `null` / `undefined`
sentinels, so the row qualifies via its non-empty file path. -/
theorem undefined_filepath_produces_record :
    extractValidRows 0 none none (some 1) [[none, some "undefined"]] =
      [⟨"", "", "", "undefined"⟩] ∧
    extractValidRows 0 none none (some 1) [[none, some "undefined"]] ≠ [] := by decide

/-- Claim C6, amended.  The file-path cell is stringified and trimmed like
the structure cell, but unlike the structure cell it is not tested against
the literal `null` / `undefined` strings: a row with an absent structure cell
and any file-path cell that is non-empty after trimming (including the
literal string `undefined`) produces exactly one record, with empty structure
text and that trimmed file path. -/
theorem filepath_read_trim_only (s : String) (h : jsTrim s ≠ "") :
    rowRecord 0 none none (some 1) [none, some s] = some ⟨"", "", "", jsTrim s⟩ := by
  have habs : ¬structPresent "" := by decide
  simp only [rowRecord, readTrimmed, readCell, List.get?, Option.getD_some]
  rw [if_pos (Or.inr h), if_neg habs, if_pos h]
  rfl

/-- Claim C6, witness for the amended theorem at the literal string
`undefined`. -/
theorem filepath_read_trim_only_witness :
    jsTrim "undefined" ≠ "" ∧
    rowRecord 0 none none (some 1) [none, some "undefined"] =
      some ⟨"", "", "", "undefined"⟩ :=
  ⟨by decide, filepath_read_trim_only "undefined" (by decide)⟩

/-- Claim C1, witness for the amended theorem at a concrete input. -/
theorem normalizePdbData_idem_witness :
    quoteWrapped (normalizePdbData "  ATOM  1 \\nTER ".data) = false ∧
    containsSub ['\\', 'n'] (normalizePdbData "  ATOM  1 \\nTER ".data) = false ∧
    containsSub ['\\', 'r'] (normalizePdbData "  ATOM  1 \\nTER ".data) = false ∧
    normalizePdbData (normalizePdbData "  ATOM  1 \\nTER ".data) =
      normalizePdbData "  ATOM  1 \\nTER ".data :=
  ⟨by decide, by decide, by decide,
    normalizePdbData_idem _ (by decide) (by decide) (by decide)⟩

end PbiMol
